import Mathlib

/-!
Verification development for the survex-rs survey loader core.

The Rust source (src/point.rs, src/station.rs, src/data.rs, src/read.rs) is
shallowly embedded here:

* `f64` coordinate and LRUD values are modelled as `ℚ`; the edge weight
  computed by `Point::distance` (a square root) lives in `ℝ`.
* `Rc<RefCell<Station>>` shared mutable stations are modelled as a
  `List Station` mutated positionally (`modifyIdx`); the `Rc` returned by
  `add_or_update` is modelled by also returning the station's position.
* The petgraph `UnGraph<String, f64>` is modelled as the list of node
  payloads (`nodes`, a node's index is its position, matching petgraph's
  sequential `NodeIndex` allocation) plus the list of edges.
* `Uuid::new_v4()` (the label source for anonymous stations) is modelled by
  a generator parameter `gen : Nat → String` applied to a per-load counter;
  freshness of the generated labels is an explicit hypothesis where needed.
* `img_read_item` results are modelled as a list of decoded records
  (`Record`); the `-1` end-of-data result is the end of the list and the
  `-2` bad-data result is the `Record.badData` element.
* `panic!` sites in `read.rs` are modelled as `PanicReason` outcomes, kept
  distinct from a normal `Result` return: a panic aborts the process, it is
  not a value handed to the caller.
-/

/-- Model of `Point` (src/point.rs): a 3D coordinate, `f64` fields as `ℚ`. -/
structure Point where
  x : ℚ
  y : ℚ
  z : ℚ
deriving DecidableEq

/-- Model of `Point::distance` (src/point.rs lines 19-22): Euclidean distance. -/
noncomputable def Point.distance (p other : Point) : ℝ :=
  Real.sqrt (((p.x - other.x) ^ 2 + (p.y - other.y) ^ 2 + (p.z - other.z) ^ 2 : ℚ) : ℝ)

/-- Model of `LRUD` (src/station.rs): four optionally-absent wall readings. -/
structure LRUD where
  left : Option ℚ
  right : Option ℚ
  up : Option ℚ
  down : Option ℚ
deriving DecidableEq

/-- Model of `LRUD::default()`: all four readings absent. -/
def LRUD.empty : LRUD := ⟨none, none, none, none⟩

/-- Model of `LRUD::update` (src/station.rs lines 139-148): each component is
set from the sign of its own input, discarding the previous value. The Rust
method mutates `self`; the previous value `_prev` is taken and ignored to
mirror that the whole record is overwritten. -/
def LRUD.update (_prev : LRUD) (left right up down : ℚ) : LRUD :=
  { left := if left < 0 then none else some left
    right := if right < 0 then none else some right
    up := if up < 0 then none else some up
    down := if down < 0 then none else some down }

/-- Model of `Station` (src/station.rs): label, coordinates, graph index,
LRUD reading and the seven classification flags. -/
structure Station where
  label : String
  coords : Point
  index : Nat
  lrud : LRUD
  surface : Bool
  underground : Bool
  entrance : Bool
  exported : Bool
  fixed : Bool
  anonymous : Bool
  wall : Bool
deriving DecidableEq

/-- Model of `Station::new` (src/station.rs lines 30-45): default LRUD, all
flags false. -/
def Station.new (label : String) (coords : Point) (index : Nat) : Station :=
  { label := label
    coords := coords
    index := index
    lrud := LRUD.empty
    surface := false
    underground := false
    entrance := false
    exported := false
    fixed := false
    anonymous := false
    wall := false }

/-- Model of `SurveyData` (src/data.rs): the stations vector plus the
undirected graph, the latter as its node payload list (a node's index is its
position) and its edge list `(from, to, weight)`. -/
structure SurveyData where
  stations : List Station
  nodes : List String
  edges : List (Nat × Nat × ℝ)

/-- Model of `SurveyData::new` (src/data.rs lines 29-34): empty. -/
def SurveyData.new : SurveyData := ⟨[], [], []⟩

/-- First station whose label equals `L`, mirroring the loop in
`SurveyData::get_by_label` (src/data.rs lines 37-44). -/
def findLabel (L : String) : List Station → Option Station
  | [] => none
  | s :: rest => if s.label = L then some s else findLabel L rest

/-- Like `findLabel` but also returning the position of the match, modelling
that the Rust loop hands back an `Rc` to that very station. -/
def findLabelIdx (L : String) : List Station → Option (Nat × Station)
  | [] => none
  | s :: rest =>
    if s.label = L then some (0, s)
    else (findLabelIdx L rest).map (fun q => (q.1 + 1, q.2))

/-- Model of `SurveyData::get_by_label` (src/data.rs lines 37-44). -/
def SurveyData.get_by_label (d : SurveyData) (L : String) : Option Station :=
  findLabel L d.stations

/-- Leading-segment test on character lists (helper for `strContains`). -/
def leadEq : List Char → List Char → Bool
  | [], _ => true
  | _ :: _, [] => false
  | a :: as, b :: bs => a = b && leadEq as bs

/-- Substring occurrence test on character lists (helper for `strContains`). -/
def hasSub (needle : List Char) : List Char → Bool
  | [] => leadEq needle []
  | c :: rest => leadEq needle (c :: rest) || hasSub needle rest

/-- Model of Rust `str::contains` on string slices: `strContains hay pat`
holds when `pat` occurs contiguously inside `hay`. -/
def strContains (hay pat : String) : Bool :=
  hasSub pat.toList hay.toList

/-- Model of `SurveyData::get_by_label_part` (src/data.rs lines 50-70): filter
the stations whose label contains the fragment; a single match is returned
directly, otherwise the first exact match among the matches, otherwise
nothing. -/
def SurveyData.get_by_label_part (d : SurveyData) (L : String) : Option Station :=
  match d.stations.filter (fun s => strContains s.label L) with
  | [s] => some s
  | ms => findLabel L ms

/-- First station whose coordinates equal `p`, mirroring the loop in
`SurveyData::get_by_coords` (src/data.rs lines 74-81). -/
def findCoords (p : Point) : List Station → Option Station
  | [] => none
  | s :: rest => if s.coords = p then some s else findCoords p rest

/-- Model of `SurveyData::get_by_coords` (src/data.rs lines 74-81). -/
def SurveyData.get_by_coords (d : SurveyData) (p : Point) : Option Station :=
  findCoords p d.stations

/-- Positional list access (our own `get?`, to keep the development
self-contained). -/
def listNth : List α → Nat → Option α
  | [], _ => none
  | a :: _, 0 => some a
  | _ :: t, n + 1 => listNth t n

/-- In-place mutation of the element at position `i`, modelling a write
through an `Rc<RefCell<Station>>` held in the stations vector. -/
def modifyIdx : List α → Nat → (α → α) → List α
  | [], _, _ => []
  | a :: t, 0, f => f a :: t
  | a :: t, n + 1, f => a :: modifyIdx t n f

/-- The in-place coordinate overwrite performed by the found branch of
`SurveyData::add_or_update` (src/data.rs lines 101-107): locate the first
station labelled `L` (as `get_by_label` does), overwrite its coordinates, and
report its position and graph index; `none` when no station has the label. -/
def updCoords (coords : Point) (L : String) :
    List Station → Option (List Station × Nat × Nat)
  | [] => none
  | s :: rest =>
    if s.label = L then some (({ s with coords := coords }) :: rest, 0, s.index)
    else (updCoords coords L rest).map (fun q => (s :: q.1, q.2.1 + 1, q.2.2))

/-- Model of `SurveyData::add_or_update` (src/data.rs lines 100-115). Returns
the new data together with the touched station's position in the stations
vector (standing for the returned `Rc`) and its graph node index. A fresh
graph node's index is the current node count, as petgraph allocates it. -/
def SurveyData.add_or_update (d : SurveyData) (coords : Point) (L : String) :
    SurveyData × Nat × Nat :=
  match updCoords coords L d.stations with
  | some q => ({ d with stations := q.1 }, q.2.1, q.2.2)
  | none =>
    let index := d.nodes.length
    ({ stations := d.stations ++ [Station.new L coords index]
       nodes := d.nodes ++ [L]
       edges := d.edges }, d.stations.length, index)

/-- The labels of the stations, in insertion order. -/
def SurveyData.labels (d : SurveyData) : List String :=
  d.stations.map (fun s => s.label)

/-- Reasons for the `panic!` sites reached while loading (src/read.rs):
bad data from the decoder (`img_read_item` result `-2`), an unrecognised item
type, a failed cross-section label lookup, and a failed edge-endpoint
coordinate lookup. A panic aborts the process: it is not a `Result` value
returned to the caller. -/
inductive PanicReason where
  | badData : PanicReason
  | unknownItem : PanicReason
  | labelNotFound : String → PanicReason
  | coordsNotFound : Point → PanicReason
deriving DecidableEq

/-- One decoded item produced by `img_read_item` (src/read.rs loop): the
result codes 0..6 tagged with the data read into `pimg`/`p`, plus `badData`
for result `-2` and `unknown` for any other result. End of data (result `-1`)
is the end of the record list. Each coordinate-bearing record carries the
`img_point` the call wrote. -/
inductive Record where
  | move : Point → Record
  | line : Point → Record
  | cross : Record
  | label : Point → String → Nat → Record
  | xsect : ℚ → ℚ → ℚ → ℚ → Nat → String → Record
  | xsectEnd : Record
  | errorInfo : Record
  | badData : Record
  | unknown : Record
deriving DecidableEq

/-- The mutable locals of `load_from_path` (src/read.rs lines 30-52): the
data being built, the buffered connections, the previous coordinates
`(x, y, z)`, the carried `label` buffer, and the counter feeding the
fresh-label generator that models `Uuid::new_v4()`. -/
structure LoaderState where
  data : SurveyData
  connections : List (Point × Point)
  pos : Point
  lastLabel : String
  ctr : Nat

/-- The initial loader state (src/read.rs lines 31-48): empty data, no
connections, `(x, y, z) = (-1, -1, -1)`, empty label. -/
def initState : LoaderState :=
  { data := SurveyData.new
    connections := []
    pos := ⟨-1, -1, -1⟩
    lastLabel := ""
    ctr := 0 }

/-- The seven flag writes of the LABEL branch (src/read.rs lines 113-147),
applied in source order to the station returned by `add_or_update`; `uuid` is
the fresh label generated when the anonymous bit is set (the write
`station.label = Uuid::new_v4().to_string()` happens right after setting the
`anonymous` flag, before the `wall` check). `fl` is already masked with
`0x7f`. -/
def applyFlags (fl : Nat) (uuid : String) (s : Station) : Station :=
  let s := if fl &&& 0x01 ≠ 0 then { s with surface := true } else s
  let s := if fl &&& 0x02 ≠ 0 then { s with underground := true } else s
  let s := if fl &&& 0x04 ≠ 0 then { s with entrance := true } else s
  let s := if fl &&& 0x08 ≠ 0 then { s with exported := true } else s
  let s := if fl &&& 0x10 ≠ 0 then { s with fixed := true } else s
  let s := if fl &&& 0x20 ≠ 0 then { s with anonymous := true, label := uuid } else s
  let s := if fl &&& 0x40 ≠ 0 then { s with wall := true } else s
  s

/-- The LABEL branch (src/read.rs lines 102-147): set the carried label
buffer to the record's text, mask the flags with `0x7f`, upsert the station
at the current point under that text, then apply the flag writes (and, for
the anonymous bit, the fresh relabel) through the returned reference. The
uuid counter advances exactly when the anonymous bit is set. -/
def stepLabel (gen : Nat → String) (st : LoaderState) (p : Point) (text : String)
    (flags : Nat) : LoaderState :=
  let fl := flags &&& 0x7f
  let r := st.data.add_or_update p text
  { data := { r.1 with stations := modifyIdx r.1.stations r.2.1 (applyFlags fl (gen st.ctr)) }
    connections := st.connections
    pos := st.pos
    lastLabel := text
    ctr := if fl &&& 0x20 ≠ 0 then st.ctr + 1 else st.ctr }

/-- The XSECT branch (src/read.rs lines 148-172): when bit `0x20` of the
masked flags is unset the carried label buffer is overwritten with the
record's text, otherwise it is reused unchanged; the station with the
resulting label gets its LRUD overwritten, and a missing station is a
panic. -/
def stepXsect (st : LoaderState) (l r u d : ℚ) (flags : Nat) (text : String) :
    Except PanicReason LoaderState :=
  let fl := flags &&& 0x7f
  let lab := if fl &&& 0x20 = 0 then text else st.lastLabel
  match findLabelIdx lab st.data.stations with
  | none => .error (.labelNotFound lab)
  | some q =>
    .ok { st with
            lastLabel := lab
            data := { st.data with
                        stations := modifyIdx st.data.stations q.1
                          (fun s => { s with lrud := s.lrud.update l r u d }) } }

/-- One iteration of the reading loop of `load_from_path` (src/read.rs lines
73-183), dispatching on the decoded record. MOVE updates the previous
coordinates; LINE buffers a connection from the previous coordinates and
advances them; CROSS, XSECT_END and ERROR_INFO are ignored; LABEL and XSECT
are as above; bad data and unknown item types panic. -/
def stepRecord (gen : Nat → String) (st : LoaderState) :
    Record → Except PanicReason LoaderState
  | .move p => .ok { st with pos := p }
  | .line p => .ok { st with connections := st.connections ++ [(st.pos, p)], pos := p }
  | .cross => .ok st
  | .label p text flags => .ok (stepLabel gen st p text flags)
  | .xsect l r u d flags text => stepXsect st l r u d flags text
  | .xsectEnd => .ok st
  | .errorInfo => .ok st
  | .badData => .error .badData
  | .unknown => .error .unknownItem

/-- The reading loop itself: records are consumed in order until the list
(the stream up to the `-1` result) is exhausted or a panic occurs. -/
def runRecords (gen : Nat → String) : List Record → LoaderState → Except PanicReason LoaderState
  | [], st => .ok st
  | r :: rs, st =>
    match stepRecord gen st r with
    | .error e => .error e
    | .ok st' => runRecords gen rs st'

/-- The deferred edge resolution pass (src/read.rs lines 193-209): each
buffered `(p1, p2)` pair is resolved by coordinate lookup (panicking on a
miss, `p1` first) and one edge is appended, weighted by `p1.distance(p2)`. -/
noncomputable def resolveConnections :
    List (Point × Point) → SurveyData → Except PanicReason SurveyData
  | [], d => .ok d
  | c :: rest, d =>
    match d.get_by_coords c.1 with
    | none => .error (.coordsNotFound c.1)
    | some s1 =>
      match d.get_by_coords c.2 with
      | none => .error (.coordsNotFound c.2)
      | some s2 =>
        resolveConnections rest
          { d with edges := d.edges ++ [(s1.index, s2.index, Point.distance c.1 c.2)] }

/-- What the process observably does on a given stream: either control
returns to the caller with the built network (`Ok(data)`), or the process
aborts in a `panic!` with the given reason. (The only `Err` return of
`load_from_path` is the failed `img_open_survey` before any record is read,
outside the stream model.) -/
inductive StreamOutcome where
  | network : SurveyData → StreamOutcome
  | panicked : PanicReason → StreamOutcome

/-- The record-processing core of `load_from_path` (src/read.rs lines
73-212): run the reading loop from the initial state, then resolve the
buffered connections into edges. -/
noncomputable def loadStream (gen : Nat → String) (recs : List Record) : StreamOutcome :=
  match runRecords gen recs initState with
  | .error e => .panicked e
  | .ok st =>
    match resolveConnections st.connections st.data with
    | .error e => .panicked e
    | .ok d => .network d

/-- Whether the outcome is a value returned to the caller (a `panic!` never
is). -/
def returnsToCaller : StreamOutcome → Bool
  | .network _ => true
  | .panicked _ => false

/-- An interleaving of interpreter records and direct `add_or_update` calls,
for stating invariants over every sequence of loader operations. -/
inductive LoadOp where
  | dec : Record → LoadOp
  | ups : Point → String → LoadOp

/-- The label texts supplied by a sequence of operations (LABEL record texts
and upsert labels; no other operation introduces a label). -/
def opLabels : List LoadOp → List String
  | [] => []
  | .dec (.label _ t _) :: rest => t :: opLabels rest
  | .ups _ t :: rest => t :: opLabels rest
  | .dec _ :: rest => opLabels rest

/-- Run one loader operation. -/
def stepOp (gen : Nat → String) (st : LoaderState) : LoadOp → Except PanicReason LoaderState
  | .dec r => stepRecord gen st r
  | .ups c l => .ok { st with data := (st.data.add_or_update c l).1 }

/-- Run a sequence of loader operations. -/
def runOps (gen : Nat → String) : List LoadOp → LoaderState → Except PanicReason LoaderState
  | [], st => .ok st
  | o :: os, st =>
    match stepOp gen st o with
    | .error e => .error e
    | .ok st' => runOps gen os st'


/-- The number of stations in a list carrying the label `L`. -/
def countLabel (L : String) : List Station → Nat
  | [] => 0
  | s :: t => (if s.label = L then 1 else 0) + countLabel L t

/-- Invariant tying a data value to the uuid counter: the station labels are
pairwise distinct, every label either was supplied by an operation in `L` or
is a generated label `gen k` for an already-consumed counter value `k`, and
the stations vector and the graph node list have the same length. -/
def GoodLabels (gen : Nat → String) (L : List String) (ctr : Nat) (d : SurveyData) : Prop :=
  d.labels.Nodup ∧
  (∀ x ∈ d.labels, x ∈ L ∨ ∃ k, k < ctr ∧ x = gen k) ∧
  d.stations.length = d.nodes.length

/-- Concrete label text used by witnesses. -/
def labA : String := "A"

/-- Concrete label text used by witnesses. -/
def labB : String := "B"

/-- A concrete fresh-label generator standing in for `Uuid::new_v4()` in
witnesses: `n` maps to the string of `n + 1` copies of `u`. -/
def genU (n : Nat) : String := String.mk (List.replicate (n + 1) 'u')

/-- The origin point. -/
def p000 : Point := ⟨0, 0, 0⟩

/-- The point `(3, 4, 0)`, at distance 5 from the origin. -/
def p340 : Point := ⟨3, 4, 0⟩

/-- The four-record stream of the 3-4-5 edge-weight scenario:
Move(0,0,0), Label at (0,0,0) named A, Line to (3,4,0), Label at (3,4,0)
named B. -/
def c5recs : List Record :=
  [Record.move p000, Record.label p000 labA 0, Record.line p340, Record.label p340 labB 0]

/-- The network produced by the 3-4-5 stream: stations A and B, one edge. -/
noncomputable def c5data : SurveyData :=
  { stations := [Station.new labA p000 0, Station.new labB p340 1]
    nodes := [labA, labB]
    edges := [(0, 1, Point.distance p000 p340)] }

/-- A one-station network used as concrete input by witnesses. -/
def stationW : Station := Station.new labA p000 0

/-- A one-station network used as concrete input by witnesses. -/
def dataW : SurveyData := { stations := [stationW], nodes := [labA], edges := [] }

/-- A loader state holding `dataW`, used as concrete input by witnesses. -/
def stateW : LoaderState :=
  { data := dataW, connections := [], pos := p000, lastLabel := labA, ctr := 0 }

/-- The station of `stateW` after one LRUD update, used by a witness. -/
def stationW1 : Station := { stationW with lrud := stationW.lrud.update 1 1 1 1 }

/-- The loader state after the first cross-section of the carry-over
witness. -/
def stateW1 : LoaderState :=
  { data := { stations := [stationW1], nodes := [labA], edges := [] }
    connections := []
    pos := p000
    lastLabel := labA
    ctr := 0 }

/-- A one-operation sequence used as concrete input by the uniqueness
witness. -/
def opsW : List LoadOp := [LoadOp.ups p000 labA]

/-- The loader state reached by `opsW` from the initial state. -/
def stateC1W : LoaderState :=
  { data := dataW
    connections := []
    pos := ⟨-1, -1, -1⟩
    lastLabel := ""
    ctr := 0 }

/-! Basic lemmas about the positional-list primitives. -/

theorem length_modifyIdx (l : List α) (i : Nat) (f : α → α) :
    (modifyIdx l i f).length = l.length := by
  induction l generalizing i with
  | nil => rfl
  | cons a t ih =>
    cases i with
    | zero => rfl
    | succ n => simpa [modifyIdx] using ih n

theorem listNth_modifyIdx_self {l : List α} {i : Nat} {a : α} (f : α → α)
    (h : listNth l i = some a) : listNth (modifyIdx l i f) i = some (f a) := by
  induction l generalizing i with
  | nil => simp [listNth] at h
  | cons b t ih =>
    cases i with
    | zero =>
      simp [listNth] at h
      simp [listNth, modifyIdx, h]
    | succ n =>
      simp [listNth] at h
      simpa [listNth, modifyIdx] using ih h

theorem listNth_modifyIdx_ne {l : List α} {i j : Nat} (f : α → α) (h : i ≠ j) :
    listNth (modifyIdx l i f) j = listNth l j := by
  induction l generalizing i j with
  | nil => rfl
  | cons b t ih =>
    cases i with
    | zero =>
      cases j with
      | zero => exact absurd rfl h
      | succ m => rfl
    | succ n =>
      cases j with
      | zero => rfl
      | succ m =>
        simpa [listNth, modifyIdx] using ih (fun hnm => h (by simp [hnm]))

theorem listNth_mem {l : List α} {i : Nat} {a : α} (h : listNth l i = some a) : a ∈ l := by
  induction l generalizing i with
  | nil => simp [listNth] at h
  | cons b t ih =>
    cases i with
    | zero => simp [listNth] at h; simp [h]
    | succ n => simp [listNth] at h; exact List.mem_cons_of_mem _ (ih h)

theorem listNth_append_len (l : List α) (a : α) :
    listNth (l ++ [a]) l.length = some a := by
  induction l with
  | nil => rfl
  | cons b t ih => simpa [listNth] using ih

theorem listNth_append_left {l l' : List α} {j : Nat} (h : j < l.length) :
    listNth (l ++ l') j = listNth l j := by
  induction l generalizing j with
  | nil => simp at h
  | cons b t ih =>
    cases j with
    | zero => rfl
    | succ n => simpa [listNth] using ih (by simpa using h)

theorem map_modifyIdx_same (f : α → β) (g : α → α) (l : List α) (i : Nat)
    (h : ∀ a, f (g a) = f a) : (modifyIdx l i g).map f = l.map f := by
  induction l generalizing i with
  | nil => rfl
  | cons a t ih =>
    cases i with
    | zero => simp [modifyIdx, h]
    | succ n => simp [modifyIdx, ih]

theorem map_modifyIdx_const (f : α → β) (g : α → α) (l : List α) (i : Nat) (c : β)
    (h : ∀ a, f (g a) = c) : (modifyIdx l i g).map f = modifyIdx (l.map f) i (fun _ => c) := by
  induction l generalizing i with
  | nil => rfl
  | cons a t ih =>
    cases i with
    | zero => simp [modifyIdx, h]
    | succ n => simp [modifyIdx, ih]

theorem mem_modifyIdx_const {l : List α} {i : Nat} {b x : α}
    (h : x ∈ modifyIdx l i (fun _ => b)) : x = b ∨ x ∈ l := by
  induction l generalizing i with
  | nil => simp [modifyIdx] at h
  | cons a t ih =>
    cases i with
    | zero =>
      rcases List.mem_cons.mp h with h1 | h1
      · exact Or.inl h1
      · exact Or.inr (List.mem_cons_of_mem _ h1)
    | succ n =>
      rcases List.mem_cons.mp h with h1 | h1
      · exact Or.inr (by simp [h1])
      · rcases ih h1 with h2 | h2
        · exact Or.inl h2
        · exact Or.inr (List.mem_cons_of_mem _ h2)

theorem nodup_modifyIdx_const {l : List α} {i : Nat} {b : α}
    (hl : l.Nodup) (hb : b ∉ l) : (modifyIdx l i (fun _ => b)).Nodup := by
  induction l generalizing i with
  | nil => simp [modifyIdx]
  | cons a t ih =>
    rcases List.nodup_cons.mp hl with ⟨ha, ht⟩
    cases i with
    | zero =>
      exact List.nodup_cons.mpr ⟨fun hmem => hb (List.mem_cons_of_mem _ hmem), ht⟩
    | succ n =>
      refine List.nodup_cons.mpr ⟨?_, ih ht (fun hmem => hb (List.mem_cons_of_mem _ hmem))⟩
      intro hmem
      rcases mem_modifyIdx_const hmem with h1 | h1
      · exact hb (by simp [h1])
      · exact ha h1

theorem modifyIdx_const_self {l : List α} {i : Nat} {b : α}
    (h : listNth l i = some b) : modifyIdx l i (fun _ => b) = l := by
  induction l generalizing i with
  | nil => rfl
  | cons a t ih =>
    cases i with
    | zero => simp [listNth] at h; simp [modifyIdx, h]
    | succ n => simp [listNth] at h; simp [modifyIdx, ih h]

theorem modifyIdx_append_len (l : List α) (a : α) (f : α → α) :
    modifyIdx (l ++ [a]) l.length f = l ++ [f a] := by
  induction l with
  | nil => rfl
  | cons b t ih => simp [modifyIdx, ih]

theorem modifyIdx_modifyIdx (l : List α) (i : Nat) (f g : α → α) :
    modifyIdx (modifyIdx l i f) i g = modifyIdx l i (fun a => g (f a)) := by
  induction l generalizing i with
  | nil => rfl
  | cons a t ih =>
    cases i with
    | zero => rfl
    | succ n => simp [modifyIdx, ih]

/-! Characterizations of the label and coordinate searches. -/

theorem findLabel_eq_none {L : String} {l : List Station} :
    findLabel L l = none ↔ ∀ s ∈ l, s.label ≠ L := by
  induction l with
  | nil => simp [findLabel]
  | cons a t ih =>
    by_cases h : a.label = L
    · simp [findLabel, h]
    · simp [findLabel, h, ih]

theorem findLabel_eq_some {L : String} {l : List Station} {s : Station}
    (h : findLabel L l = some s) :
    ∃ i, listNth l i = some s ∧ s.label = L ∧
      ∀ j t, j < i → listNth l j = some t → t.label ≠ L := by
  induction l with
  | nil => simp [findLabel] at h
  | cons a t ih =>
    by_cases ha : a.label = L
    · simp [findLabel, ha] at h
      exact ⟨0, by simp [listNth, h.symm], by rw [← h]; exact ha, by omega⟩
    · simp [findLabel, ha] at h
      rcases ih h with ⟨i, h1, h2, h3⟩
      refine ⟨i + 1, by simpa [listNth] using h1, h2, ?_⟩
      intro j u hj hu
      cases j with
      | zero => simp [listNth] at hu; rw [← hu]; exact ha
      | succ m => exact h3 m u (by omega) (by simpa [listNth] using hu)

theorem findLabel_of_first {L : String} {l : List Station} {s : Station} {i : Nat}
    (h1 : listNth l i = some s) (h2 : s.label = L)
    (h3 : ∀ j t, j < i → listNth l j = some t → t.label ≠ L) :
    findLabel L l = some s := by
  induction l generalizing i with
  | nil => simp [listNth] at h1
  | cons a t ih =>
    cases i with
    | zero =>
      simp [listNth] at h1
      simp [findLabel, h1, h2]
    | succ n =>
      simp [listNth] at h1
      have ha : a.label ≠ L := h3 0 a (by omega) (by simp [listNth])
      simp only [findLabel, ha, if_neg ha]
      exact ih h1 (fun j u hj hu => h3 (j + 1) u (by omega) (by simpa [listNth] using hu))

theorem findLabelIdx_eq_some {L : String} {l : List Station} {i : Nat} {s : Station}
    (h : findLabelIdx L l = some (i, s)) :
    listNth l i = some s ∧ s.label = L ∧
      ∀ j t, j < i → listNth l j = some t → t.label ≠ L := by
  induction l generalizing i with
  | nil => simp [findLabelIdx] at h
  | cons a t ih =>
    by_cases ha : a.label = L
    · simp [findLabelIdx, ha] at h
      obtain ⟨hi, hs⟩ := h
      subst hi; subst hs
      exact ⟨by simp [listNth], ha, by omega⟩
    · simp only [findLabelIdx, if_neg ha, Option.map_eq_some'] at h
      rcases h with ⟨⟨j, u⟩, hq, heq⟩
      have hi : j + 1 = i := congrArg Prod.fst heq
      have hs : u = s := congrArg Prod.snd heq
      subst hs
      rcases ih hq with ⟨h1, h2, h3⟩
      refine ⟨?_, h2, ?_⟩
      · rw [← hi]; simpa [listNth] using h1
      · intro k v hk hv
        rw [← hi] at hk
        cases k with
        | zero => simp [listNth] at hv; rw [← hv]; exact ha
        | succ m => exact h3 m v (by omega) (by simpa [listNth] using hv)

theorem findLabelIdx_of_first {L : String} {l : List Station} {s : Station} {i : Nat}
    (h1 : listNth l i = some s) (h2 : s.label = L)
    (h3 : ∀ j t, j < i → listNth l j = some t → t.label ≠ L) :
    findLabelIdx L l = some (i, s) := by
  induction l generalizing i with
  | nil => simp [listNth] at h1
  | cons a t ih =>
    cases i with
    | zero =>
      simp [listNth] at h1
      simp [findLabelIdx, h1, h2]
    | succ n =>
      simp [listNth] at h1
      have ha : a.label ≠ L := h3 0 a (by omega) (by simp [listNth])
      simp only [findLabelIdx, if_neg ha]
      rw [ih h1 (fun j u hj hu => h3 (j + 1) u (by omega) (by simpa [listNth] using hu))]
      rfl

theorem findLabelIdx_map_snd (L : String) (l : List Station) :
    (findLabelIdx L l).map (fun q => q.2) = findLabel L l := by
  induction l with
  | nil => rfl
  | cons a t ih =>
    by_cases ha : a.label = L
    · simp [findLabelIdx, findLabel, ha]
    · simp only [findLabelIdx, findLabel, if_neg ha, Option.map_map]
      rw [← ih]
      rfl

theorem updCoords_eq_none {c : Point} {L : String} {l : List Station} :
    updCoords c L l = none ↔ ∀ s ∈ l, s.label ≠ L := by
  induction l with
  | nil => simp [updCoords]
  | cons a t ih =>
    by_cases ha : a.label = L
    · simp [updCoords, ha]
    · simp [updCoords, ha, ih]

theorem updCoords_eq_some {c : Point} {L : String} {l : List Station} {q} (h : updCoords c L l = some q) :
    ∃ s, listNth l q.2.1 = some s ∧ s.label = L ∧ q.2.2 = s.index ∧
      q.1 = modifyIdx l q.2.1 (fun t => { t with coords := c }) ∧
      ∀ j t, j < q.2.1 → listNth l j = some t → t.label ≠ L := by
  induction l generalizing q with
  | nil => simp [updCoords] at h
  | cons a t ih =>
    by_cases ha : a.label = L
    · rw [updCoords, if_pos ha] at h
      injection h with h
      subst h
      refine ⟨a, by simp [listNth], ha, rfl, by simp [modifyIdx], ?_⟩
      intro j u hj hu
      exact absurd (show j < 0 from hj) (by omega)
    · simp only [updCoords, if_neg ha, Option.map_eq_some'] at h
      rcases h with ⟨q', hq', heq⟩
      rcases ih hq' with ⟨s, h1, h2, h3, h4, h5⟩
      have e1 : q.1 = a :: q'.1 := by rw [← heq]
      have e2 : q.2.1 = q'.2.1 + 1 := by rw [← heq]
      have e3 : q.2.2 = q'.2.2 := by rw [← heq]
      refine ⟨s, ?_, h2, by rw [e3]; exact h3, ?_, ?_⟩
      · rw [e2]; simpa [listNth] using h1
      · rw [e1, e2, h4]; simp [modifyIdx]
      · intro j u hj hu
        rw [e2] at hj
        cases j with
        | zero => simp [listNth] at hu; rw [← hu]; exact ha
        | succ m => exact h5 m u (by omega) (by simpa [listNth] using hu)

theorem updCoords_of_first {c : Point} {L : String} {l : List Station} {s : Station} {i : Nat}
    (h1 : listNth l i = some s) (h2 : s.label = L)
    (h3 : ∀ j t, j < i → listNth l j = some t → t.label ≠ L) :
    updCoords c L l = some (modifyIdx l i (fun t => { t with coords := c }), i, s.index) := by
  induction l generalizing i with
  | nil => simp [listNth] at h1
  | cons a t ih =>
    cases i with
    | zero =>
      simp [listNth] at h1
      simp [updCoords, h1, h2, modifyIdx]
    | succ n =>
      simp [listNth] at h1
      have ha : a.label ≠ L := h3 0 a (by omega) (by simp [listNth])
      simp only [updCoords, if_neg ha]
      rw [ih h1 (fun j u hj hu => h3 (j + 1) u (by omega) (by simpa [listNth] using hu))]
      simp [modifyIdx]

/-! Counting stations by label. -/

theorem countLabel_eq_zero {L : String} {l : List Station} :
    countLabel L l = 0 ↔ ∀ s ∈ l, s.label ≠ L := by
  induction l with
  | nil => simp [countLabel]
  | cons a t ih =>
    by_cases ha : a.label = L
    · simp [countLabel, ha]
    · simp [countLabel, ha, ih]

theorem countLabel_pos {L : String} {l : List Station} :
    0 < countLabel L l ↔ ∃ s ∈ l, s.label = L := by
  induction l with
  | nil => simp [countLabel]
  | cons a t ih =>
    by_cases ha : a.label = L
    · simp [countLabel, ha]
    · simp [countLabel, ha, ih]

theorem countLabel_append (L : String) (l l' : List Station) :
    countLabel L (l ++ l') = countLabel L l + countLabel L l' := by
  induction l with
  | nil => simp [countLabel]
  | cons a t ih => simp [countLabel, ih]; omega

theorem countLabel_modifyIdx_same {L : String} {l : List Station} {i : Nat} {g : Station → Station}
    (h : ∀ a, (g a).label = a.label) :
    countLabel L (modifyIdx l i g) = countLabel L l := by
  induction l generalizing i with
  | nil => rfl
  | cons a t ih =>
    cases i with
    | zero => simp [modifyIdx, countLabel, h]
    | succ n => simp [modifyIdx, countLabel, ih]

theorem countLabel_le_one_of_nodup {L : String} {l : List Station}
    (h : (l.map (fun s => s.label)).Nodup) : countLabel L l ≤ 1 := by
  induction l with
  | nil => simp [countLabel]
  | cons a t ih =>
    rw [List.map_cons, List.nodup_cons] at h
    obtain ⟨ha, ht⟩ := h
    by_cases hl : a.label = L
    · have hz : countLabel L t = 0 := by
        rw [countLabel_eq_zero]
        intro s hs hsl
        apply ha
        rw [hl, ← hsl]
        exact List.mem_map_of_mem _ hs
      simp [countLabel, hl, hz]
    · simpa [countLabel, hl] using ih ht

theorem countLabel_filter_le (L : String) (p : Station → Bool) (l : List Station) :
    countLabel L (l.filter p) ≤ countLabel L l := by
  induction l with
  | nil => simp [countLabel]
  | cons a t ih =>
    by_cases hp : p a
    · simp only [List.filter_cons, hp, if_pos]
      simp [countLabel]
      omega
    · simp only [List.filter_cons]
      rw [if_neg (by simp [hp])]
      simp [countLabel]
      omega

/-! The flag-write sequence of the LABEL branch, characterized field by
field. -/

theorem applyFlags_spec (fl : Nat) (uuid : String) (s : Station) :
    applyFlags fl uuid s =
      { label := if fl &&& 0x20 ≠ 0 then uuid else s.label
        coords := s.coords
        index := s.index
        lrud := s.lrud
        surface := if fl &&& 0x01 ≠ 0 then true else s.surface
        underground := if fl &&& 0x02 ≠ 0 then true else s.underground
        entrance := if fl &&& 0x04 ≠ 0 then true else s.entrance
        exported := if fl &&& 0x08 ≠ 0 then true else s.exported
        fixed := if fl &&& 0x10 ≠ 0 then true else s.fixed
        anonymous := if fl &&& 0x20 ≠ 0 then true else s.anonymous
        wall := if fl &&& 0x40 ≠ 0 then true else s.wall } := by
  by_cases h1 : fl % 2 = 1 <;>
    by_cases h2 : fl &&& 0x02 ≠ 0 <;>
    by_cases h3 : fl &&& 0x04 ≠ 0 <;>
    by_cases h4 : fl &&& 0x08 ≠ 0 <;>
    by_cases h5 : fl &&& 0x10 ≠ 0 <;>
    by_cases h6 : fl &&& 0x20 ≠ 0 <;>
    by_cases h7 : fl &&& 0x40 ≠ 0 <;>
    simp [applyFlags, h1, h2, h3, h4, h5, h6, h7]

/-! The two branches of `add_or_update`, as equations. -/

theorem add_or_update_found {d : SurveyData} {L : String} {s : Station} (c : Point)
    (h : d.get_by_label L = some s) :
    ∃ i, listNth d.stations i = some s ∧
      (∀ j t, j < i → listNth d.stations j = some t → t.label ≠ L) ∧
      d.add_or_update c L =
        ({ d with stations := modifyIdx d.stations i (fun t => { t with coords := c }) }, i, s.index) := by
  rcases findLabel_eq_some h with ⟨i, h1, h2, h3⟩
  refine ⟨i, h1, h3, ?_⟩
  rw [SurveyData.add_or_update, updCoords_of_first h1 h2 h3]

theorem add_or_update_new {d : SurveyData} {L : String} (c : Point)
    (h : d.get_by_label L = none) :
    d.add_or_update c L =
      ({ stations := d.stations ++ [Station.new L c d.nodes.length]
         nodes := d.nodes ++ [L]
         edges := d.edges }, d.stations.length, d.nodes.length) := by
  have hn : updCoords c L d.stations = none :=
    updCoords_eq_none.mpr (findLabel_eq_none.mp h)
  rw [SurveyData.add_or_update, hn]

/-! Substring containment is reflexive (used for exact matches in the
fragment lookup). -/

theorem leadEq_self (l : List Char) : leadEq l l = true := by
  induction l with
  | nil => rfl
  | cons a t ih => simp [leadEq, ih]

theorem strContains_self (s : String) : strContains s s = true := by
  unfold strContains
  cases h : s.toList with
  | nil => simp [hasSub, leadEq]
  | cons c t => simp [hasSub, leadEq_self]

/-! A label-preserving in-place mutation does not move the first match. -/

theorem findLabelIdx_modifyIdx_same {L : String} {l : List Station} {i : Nat}
    {g : Station → Station} (hg : ∀ a, (g a).label = a.label) :
    findLabelIdx L (modifyIdx l i g) =
      (findLabelIdx L l).map (fun q => (q.1, if q.1 = i then g q.2 else q.2)) := by
  induction l generalizing i with
  | nil => rfl
  | cons a t ih =>
    cases i with
    | zero =>
      by_cases ha : a.label = L
      · simp [modifyIdx, findLabelIdx, hg, ha]
      · simp only [modifyIdx, findLabelIdx, hg, if_neg ha, Option.map_map]
        apply Option.map_congr
        intro q _
        simp
    | succ n =>
      by_cases ha : a.label = L
      · simp [modifyIdx, findLabelIdx, ha]
      · simp only [modifyIdx, findLabelIdx, if_neg ha, ih, Option.map_map]
        apply Option.map_congr
        intro q _
        by_cases hq : q.1 = n <;> simp [hq]

/-- C7: for every prior LRUD state and every input `(l, r, u, d)`,
`LRUD::update` sets each component to absent if its input value is negative
and to present with that value if it is non-negative, independently per
component and regardless of the prior state. -/
theorem lrud_update_sign_rule (prev : LRUD) (l r u d : ℚ) :
    (prev.update l r u d).left = (if l < 0 then none else some l) ∧
    (prev.update l r u d).right = (if r < 0 then none else some r) ∧
    (prev.update l r u d).up = (if u < 0 then none else some u) ∧
    (prev.update l r u d).down = (if d < 0 then none else some d) :=
  ⟨rfl, rfl, rfl, rfl⟩

/-- C9: when `add_or_update` finds an existing station with the given label,
only that station's coordinates change: it keeps its position, its graph
index is returned, the station at that position is the old one with only
`coords` replaced, every other station is untouched, and the graph nodes and
edges are unchanged. -/
theorem upsert_found_frame (d : SurveyData) (c : Point) (L : String) (s : Station)
    (h : d.get_by_label L = some s) :
    ∃ i, listNth d.stations i = some s ∧
      (d.add_or_update c L).2.1 = i ∧
      (d.add_or_update c L).2.2 = s.index ∧
      (d.add_or_update c L).1.stations =
        modifyIdx d.stations i (fun t => { t with coords := c }) ∧
      listNth (d.add_or_update c L).1.stations i = some { s with coords := c } ∧
      (∀ j, j ≠ i → listNth (d.add_or_update c L).1.stations j = listNth d.stations j) ∧
      (d.add_or_update c L).1.nodes = d.nodes ∧
      (d.add_or_update c L).1.edges = d.edges ∧
      (d.add_or_update c L).1.stations.length = d.stations.length := by
  rcases add_or_update_found c h with ⟨i, h1, _hfirst, heq⟩
  refine ⟨i, h1, ?_, ?_, ?_, ?_, ?_, ?_, ?_, ?_⟩ <;> rw [heq]
  · exact listNth_modifyIdx_self _ h1
  · intro j hj
    exact listNth_modifyIdx_ne _ (Ne.symm hj)
  · exact length_modifyIdx _ _ _

/-- Witness for C9 at a concrete one-station network. -/
theorem upsert_found_frame_witness :
    dataW.get_by_label labA = some stationW ∧
    (∃ i, listNth dataW.stations i = some stationW ∧
      (dataW.add_or_update p340 labA).2.1 = i ∧
      (dataW.add_or_update p340 labA).2.2 = stationW.index ∧
      (dataW.add_or_update p340 labA).1.stations =
        modifyIdx dataW.stations i (fun t => { t with coords := p340 }) ∧
      listNth (dataW.add_or_update p340 labA).1.stations i =
        some { stationW with coords := p340 } ∧
      (∀ j, j ≠ i →
        listNth (dataW.add_or_update p340 labA).1.stations j = listNth dataW.stations j) ∧
      (dataW.add_or_update p340 labA).1.nodes = dataW.nodes ∧
      (dataW.add_or_update p340 labA).1.edges = dataW.edges ∧
      (dataW.add_or_update p340 labA).1.stations.length = dataW.stations.length) :=
  ⟨rfl, upsert_found_frame dataW p340 labA stationW rfl⟩

/-- C10: for a Label record whose label already names a station, each of the
seven flag bits, when set, drives the corresponding boolean to true, and when
clear leaves that boolean exactly as it was — so flags accumulate across
later Label records for the same label instead of being replaced. -/
theorem label_flags_monotone (gen : Nat → String) (st : LoaderState) (p : Point)
    (text : String) (flags : Nat) (s : Station)
    (h : st.data.get_by_label text = some s) :
    ∃ i s', listNth st.data.stations i = some s ∧
      listNth (stepLabel gen st p text flags).data.stations i = some s' ∧
      s'.surface = (if (flags &&& 0x7f) &&& 0x01 ≠ 0 then true else s.surface) ∧
      s'.underground = (if (flags &&& 0x7f) &&& 0x02 ≠ 0 then true else s.underground) ∧
      s'.entrance = (if (flags &&& 0x7f) &&& 0x04 ≠ 0 then true else s.entrance) ∧
      s'.exported = (if (flags &&& 0x7f) &&& 0x08 ≠ 0 then true else s.exported) ∧
      s'.fixed = (if (flags &&& 0x7f) &&& 0x10 ≠ 0 then true else s.fixed) ∧
      s'.anonymous = (if (flags &&& 0x7f) &&& 0x20 ≠ 0 then true else s.anonymous) ∧
      s'.wall = (if (flags &&& 0x7f) &&& 0x40 ≠ 0 then true else s.wall) := by
  rcases add_or_update_found p h with ⟨i, h1, _hfirst, heq⟩
  refine ⟨i, applyFlags (flags &&& 0x7f) (gen st.ctr) { s with coords := p }, h1, ?_, ?_⟩
  · have hst : (stepLabel gen st p text flags).data.stations =
        modifyIdx st.data.stations i
          (fun t => applyFlags (flags &&& 0x7f) (gen st.ctr) { t with coords := p }) := by
      simp only [stepLabel, heq, modifyIdx_modifyIdx]
    rw [hst]
    exact listNth_modifyIdx_self _ h1
  · simp [applyFlags_spec]

/-- Witness for C10: a Label record with flags `0x1f` on the one-station
network. -/
theorem label_flags_monotone_witness :
    stateW.data.get_by_label labA = some stationW ∧
    (∃ i s', listNth stateW.data.stations i = some stationW ∧
      listNth (stepLabel genU stateW p340 labA 0x1f).data.stations i = some s' ∧
      s'.surface = (if (0x1f &&& 0x7f) &&& 0x01 ≠ 0 then true else stationW.surface) ∧
      s'.underground = (if (0x1f &&& 0x7f) &&& 0x02 ≠ 0 then true else stationW.underground) ∧
      s'.entrance = (if (0x1f &&& 0x7f) &&& 0x04 ≠ 0 then true else stationW.entrance) ∧
      s'.exported = (if (0x1f &&& 0x7f) &&& 0x08 ≠ 0 then true else stationW.exported) ∧
      s'.fixed = (if (0x1f &&& 0x7f) &&& 0x10 ≠ 0 then true else stationW.fixed) ∧
      s'.anonymous = (if (0x1f &&& 0x7f) &&& 0x20 ≠ 0 then true else stationW.anonymous) ∧
      s'.wall = (if (0x1f &&& 0x7f) &&& 0x40 ≠ 0 then true else stationW.wall)) :=
  ⟨rfl, label_flags_monotone genU stateW p340 labA 0x1f stationW rfl⟩

/-- C4: for a Label record with the anonymous bit (`0x20`) set, the upsert is
performed under the record's label text first — a freshly created graph node
carries that text — and only afterwards is the station's label overwritten
with the generated identifier, so the station's final label is the generated
one and (the generator being fresh) not the record's text; the uuid counter
advances. -/
theorem label_anonymous_relabel (gen : Nat → String) (st : LoaderState) (p : Point)
    (text : String) (flags : Nat)
    (hbit : (flags &&& 0x7f) &&& 0x20 ≠ 0) (hfresh : gen st.ctr ≠ text) :
    (stepLabel gen st p text flags).ctr = st.ctr + 1 ∧
    ∃ i s', listNth (stepLabel gen st p text flags).data.stations i = some s' ∧
      s'.label = gen st.ctr ∧ s'.label ≠ text ∧ s'.anonymous = true ∧
      (st.data.get_by_label text = none →
        (stepLabel gen st p text flags).data.nodes = st.data.nodes ++ [text]) := by
  constructor
  · simp [stepLabel, hbit]
  · cases h : st.data.get_by_label text with
    | some s =>
      rcases add_or_update_found p h with ⟨i, h1, _hfirst, heq⟩
      refine ⟨i, applyFlags (flags &&& 0x7f) (gen st.ctr) { s with coords := p }, ?_, ?_, ?_, ?_, ?_⟩
      · have hst : (stepLabel gen st p text flags).data.stations =
            modifyIdx st.data.stations i
              (fun t => applyFlags (flags &&& 0x7f) (gen st.ctr) { t with coords := p }) := by
          simp only [stepLabel, heq, modifyIdx_modifyIdx]
        rw [hst]
        exact listNth_modifyIdx_self _ h1
      · simp [applyFlags_spec, hbit]
      · simp [applyFlags_spec, hbit, hfresh]
      · simp [applyFlags_spec, hbit]
      · intro hnone
        exact absurd hnone (by simp)
    | none =>
      have heq := add_or_update_new p (d := st.data) (L := text) h
      refine ⟨st.data.stations.length,
        applyFlags (flags &&& 0x7f) (gen st.ctr)
          (Station.new text p st.data.nodes.length), ?_, ?_, ?_, ?_, ?_⟩
      · have hst : (stepLabel gen st p text flags).data.stations =
            st.data.stations ++
              [applyFlags (flags &&& 0x7f) (gen st.ctr)
                (Station.new text p st.data.nodes.length)] := by
          simp only [stepLabel, heq, modifyIdx_append_len]
        rw [hst]
        exact listNth_append_len _ _
      · simp [applyFlags_spec, hbit]
      · simp [applyFlags_spec, hbit, hfresh]
      · simp [applyFlags_spec, hbit]
      · intro _
        simp only [stepLabel, heq]

/-- Witness for C4: an anonymous Label record on the empty initial state. -/
theorem label_anonymous_relabel_witness :
    ((0x20 &&& 0x7f) &&& 0x20 ≠ 0) ∧ genU initState.ctr ≠ labA ∧
    ((stepLabel genU initState p000 labA 0x20).ctr = initState.ctr + 1 ∧
     ∃ i s', listNth (stepLabel genU initState p000 labA 0x20).data.stations i = some s' ∧
       s'.label = genU initState.ctr ∧ s'.label ≠ labA ∧ s'.anonymous = true ∧
       (initState.data.get_by_label labA = none →
         (stepLabel genU initState p000 labA 0x20).data.nodes =
           initState.data.nodes ++ [labA])) :=
  ⟨by decide, by decide,
    label_anonymous_relabel genU initState p000 labA 0x20 (by decide) (by decide)⟩

/-- Success case of the XSECT branch, as an equation pair. -/
theorem stepXsect_ok {st st' : LoaderState} {l r u d : ℚ} {flags : Nat} {text : String}
    (h : stepXsect st l r u d flags text = .ok st') :
    ∃ q, findLabelIdx (if (flags &&& 0x7f) &&& 0x20 = 0 then text else st.lastLabel)
        st.data.stations = some q ∧
      st' = { st with
                lastLabel := (if (flags &&& 0x7f) &&& 0x20 = 0 then text else st.lastLabel)
                data := { st.data with
                            stations := modifyIdx st.data.stations q.1
                              (fun s => { s with lrud := s.lrud.update l r u d }) } } := by
  simp only [stepXsect] at h
  cases hfi : findLabelIdx (if (flags &&& 0x7f) &&& 0x20 = 0 then text else st.lastLabel)
      st.data.stations with
  | none => rw [hfi] at h; simp at h
  | some q =>
    rw [hfi] at h
    injection h with h
    exact ⟨q, rfl, h.symm⟩

/-- The XSECT branch taken forward: a successful lookup determines the
result. -/
theorem stepXsect_eq_ok (st : LoaderState) (l r u d : ℚ) (flags : Nat) (text : String)
    {q : Nat × Station}
    (hfi : findLabelIdx (if (flags &&& 0x7f) &&& 0x20 = 0 then text else st.lastLabel)
      st.data.stations = some q) :
    stepXsect st l r u d flags text = .ok
      { st with
          lastLabel := (if (flags &&& 0x7f) &&& 0x20 = 0 then text else st.lastLabel)
          data := { st.data with
                      stations := modifyIdx st.data.stations q.1
                        (fun s => { s with lrud := s.lrud.update l r u d }) } } := by
  simp only [stepXsect, hfi]

/-- C6: after a successful cross-section step, a second cross-section record
whose masked flags have bit `0x20` set reuses the carried label unchanged, so
its LRUD update lands on the very station (same position) the first record
updated; the carried label is refreshed from the record's own text exactly
when the bit is unset. -/
theorem xsect_label_carryover (st st1 : LoaderState) (l1 r1 u1 d1 : ℚ) (f1 : Nat)
    (t1 : String) (l2 r2 u2 d2 : ℚ) (f2 : Nat) (t2 : String)
    (h1 : stepXsect st l1 r1 u1 d1 f1 t1 = .ok st1)
    (hbit : (f2 &&& 0x7f) &&& 0x20 ≠ 0) :
    st1.lastLabel = (if (f1 &&& 0x7f) &&& 0x20 = 0 then t1 else st.lastLabel) ∧
    ∃ i s1 st2,
      findLabelIdx st1.lastLabel st.data.stations = some (i, s1) ∧
      st1.data.stations =
        modifyIdx st.data.stations i (fun s => { s with lrud := s.lrud.update l1 r1 u1 d1 }) ∧
      stepXsect st1 l2 r2 u2 d2 f2 t2 = .ok st2 ∧
      st2.lastLabel = st1.lastLabel ∧
      st2.data.stations =
        modifyIdx st1.data.stations i (fun s => { s with lrud := s.lrud.update l2 r2 u2 d2 }) := by
  rcases stepXsect_ok h1 with ⟨q, hfi, hst1⟩
  subst hst1
  have hfi2 : findLabelIdx
      (if (f1 &&& 0x7f) &&& 0x20 = 0 then t1 else st.lastLabel)
      (modifyIdx st.data.stations q.1
        (fun s => { s with lrud := s.lrud.update l1 r1 u1 d1 })) =
      some (q.1, { q.2 with lrud := q.2.lrud.update l1 r1 u1 d1 }) := by
    rw [findLabelIdx_modifyIdx_same
      (g := fun s => { s with lrud := s.lrud.update l1 r1 u1 d1 }) (fun a => rfl), hfi]
    simp
  have hstep := stepXsect_eq_ok
    { st with
        lastLabel := (if (f1 &&& 0x7f) &&& 0x20 = 0 then t1 else st.lastLabel)
        data := { st.data with
                    stations := modifyIdx st.data.stations q.1
                      (fun s => { s with lrud := s.lrud.update l1 r1 u1 d1 }) } }
    l2 r2 u2 d2 f2 t2 (q := (q.1, { q.2 with lrud := q.2.lrud.update l1 r1 u1 d1 }))
    (by rw [if_neg hbit]; exact hfi2)
  refine ⟨rfl, q.1, q.2, _, hfi, rfl, hstep, ?_, rfl⟩
  rw [if_neg hbit]

/-- Witness for C6: two cross-sections on the one-station network, the second
with the carry-over bit set. -/
theorem xsect_label_carryover_witness :
    (stepXsect stateW 1 1 1 1 0 labA = .ok stateW1) ∧ ((0x20 &&& 0x7f) &&& 0x20 ≠ 0) ∧
    (stateW1.lastLabel = (if (0 &&& 0x7f) &&& 0x20 = 0 then labA else stateW.lastLabel) ∧
     ∃ i s1 st2,
       findLabelIdx stateW1.lastLabel stateW.data.stations = some (i, s1) ∧
       stateW1.data.stations =
         modifyIdx stateW.data.stations i
           (fun s => { s with lrud := s.lrud.update 1 1 1 1 }) ∧
       stepXsect stateW1 2 2 2 2 0x20 labB = .ok st2 ∧
       st2.lastLabel = stateW1.lastLabel ∧
       st2.data.stations =
         modifyIdx stateW1.data.stations i
           (fun s => { s with lrud := s.lrud.update 2 2 2 2 })) :=
  ⟨rfl, by decide,
    xsect_label_carryover stateW stateW1 1 1 1 1 0 labA 2 2 2 2 0x20 labB rfl (by decide)⟩

/-- Both search branches of `add_or_update`, driven by explicit first-match
data. -/
theorem add_or_update_of_first {d : SurveyData} {L : String} {s : Station} {i : Nat}
    (c : Point) (h1 : listNth d.stations i = some s) (h2 : s.label = L)
    (h3 : ∀ j t, j < i → listNth d.stations j = some t → t.label ≠ L) :
    d.add_or_update c L =
      ({ d with stations := modifyIdx d.stations i (fun t => { t with coords := c }) },
        i, s.index) := by
  rw [SurveyData.add_or_update, updCoords_of_first h1 h2 h3]

/-- C2: if a station with the label exists, `add_or_update` overwrites its
coordinates in place and returns its existing graph index without adding a
graph node or a duplicate; and calling it twice with the same label and
different coordinates, on data holding at most one station with the label,
leaves exactly one station with the label, carrying the last coordinates. -/
theorem upsert_idempotent (d : SurveyData) (c1 c2 : Point) (L : String)
    (h : countLabel L d.stations ≤ 1) :
    countLabel L ((d.add_or_update c1 L).1.add_or_update c2 L).1.stations = 1 ∧
    (∃ s, ((d.add_or_update c1 L).1.add_or_update c2 L).1.get_by_label L = some s ∧
      s.coords = c2) ∧
    (∀ s0, d.get_by_label L = some s0 →
      (d.add_or_update c1 L).2.2 = s0.index ∧
      (d.add_or_update c1 L).1.nodes = d.nodes ∧
      (d.add_or_update c1 L).1.stations.length = d.stations.length ∧
      (d.add_or_update c1 L).1.get_by_label L = some { s0 with coords := c1 }) := by
  rcases hfe : d.get_by_label L with _ | s0
  · -- no station with the label yet: the first call creates it
    have hmem : ∀ s ∈ d.stations, s.label ≠ L := findLabel_eq_none.mp hfe
    have heq1 := add_or_update_new c1 hfe
    have h1' : listNth (d.stations ++ [Station.new L c1 d.nodes.length]) d.stations.length =
        some (Station.new L c1 d.nodes.length) := listNth_append_len _ _
    have h2' : (Station.new L c1 d.nodes.length).label = L := rfl
    have h3' : ∀ j t, j < d.stations.length →
        listNth (d.stations ++ [Station.new L c1 d.nodes.length]) j = some t →
        t.label ≠ L := by
      intro j t hj hjt
      rw [listNth_append_left hj] at hjt
      exact hmem t (listNth_mem hjt)
    have heq2 := add_or_update_of_first
      (d := { stations := d.stations ++ [Station.new L c1 d.nodes.length]
              nodes := d.nodes ++ [L], edges := d.edges }) c2 h1' h2' h3'
    simp only [heq1, heq2]
    refine ⟨?_, ?_, ?_⟩
    · rw [modifyIdx_append_len, countLabel_append, countLabel_eq_zero.mpr hmem]
      simp [countLabel, Station.new]
    · refine ⟨{ Station.new L c1 d.nodes.length with coords := c2 }, ?_, rfl⟩
      simp only [SurveyData.get_by_label]
      rw [modifyIdx_append_len]
      exact findLabel_of_first (listNth_append_len _ _) rfl
        (fun j t hj hjt => hmem t (listNth_mem (by rwa [listNth_append_left hj] at hjt)))
    · intro s0 hs
      exact absurd hs (by simp)
  · -- the label already names a station
    rcases findLabel_eq_some hfe with ⟨i, h1, h2, h3⟩
    have heq1 := add_or_update_of_first c1 h1 h2 h3
    have h1' : listNth (modifyIdx d.stations i (fun t => { t with coords := c1 })) i =
        some { s0 with coords := c1 } := listNth_modifyIdx_self _ h1
    have h2' : ({ s0 with coords := c1 } : Station).label = L := h2
    have h3' : ∀ j t, j < i →
        listNth (modifyIdx d.stations i (fun t => { t with coords := c1 })) j = some t →
        t.label ≠ L := by
      intro j t hj hjt
      rw [listNth_modifyIdx_ne _ (by omega : i ≠ j)] at hjt
      exact h3 j t hj hjt
    have heq2 := add_or_update_of_first
      (d := { d with stations := modifyIdx d.stations i (fun t => { t with coords := c1 }) })
      c2 h1' h2' h3'
    have hcount : countLabel L d.stations = 1 := by
      have hge : 0 < countLabel L d.stations :=
        countLabel_pos.mpr ⟨s0, listNth_mem h1, h2⟩
      omega
    refine ⟨?_, ?_, ?_⟩
    · simp only [heq1, heq2]
      rw [countLabel_modifyIdx_same (g := fun t => { t with coords := c2 }) (fun a => rfl),
        countLabel_modifyIdx_same (g := fun t => { t with coords := c1 }) (fun a => rfl)]
      exact hcount
    · refine ⟨{ { s0 with coords := c1 } with coords := c2 }, ?_, rfl⟩
      simp only [heq1, heq2, SurveyData.get_by_label]
      refine findLabel_of_first
        (listNth_modifyIdx_self (fun t => { t with coords := c2 }) h1') h2' ?_
      intro j t hj hjt
      rw [listNth_modifyIdx_ne _ (by omega : i ≠ j)] at hjt
      exact h3' j t hj hjt
    · intro s0' hs
      injection hs with hs
      subst hs
      refine ⟨by simp only [heq1], by simp only [heq1], ?_, ?_⟩
      · simp only [heq1, length_modifyIdx]
      · simp only [heq1, SurveyData.get_by_label]
        exact findLabel_of_first h1' h2' h3'

/-- Witness for C2: two upserts of the same label with different coordinates
on the one-station network. -/
theorem upsert_idempotent_witness :
    countLabel labA dataW.stations ≤ 1 ∧
    (countLabel labA ((dataW.add_or_update p340 labA).1.add_or_update p000 labA).1.stations = 1 ∧
     (∃ s, ((dataW.add_or_update p340 labA).1.add_or_update p000 labA).1.get_by_label labA =
        some s ∧ s.coords = p000) ∧
     (∀ s0, dataW.get_by_label labA = some s0 →
       (dataW.add_or_update p340 labA).2.2 = s0.index ∧
       (dataW.add_or_update p340 labA).1.nodes = dataW.nodes ∧
       (dataW.add_or_update p340 labA).1.stations.length = dataW.stations.length ∧
       (dataW.add_or_update p340 labA).1.get_by_label labA =
         some { s0 with coords := p340 })) :=
  ⟨by decide, upsert_idempotent dataW p340 p000 labA (by decide)⟩

/-- C8: on data with pairwise-distinct labels, `get_by_label_part` returns a
station exactly when precisely one station's label contains the fragment, or
several contain it and exactly one of those stations' labels equals the
fragment; otherwise it returns nothing. -/
theorem label_part_lookup_spec (d : SurveyData) (frag : String)
    (h : (d.stations.map (fun s => s.label)).Nodup) :
    (d.get_by_label_part frag).isSome = true ↔
      ((d.stations.filter (fun s => strContains s.label frag)).length = 1 ∨
       (2 ≤ (d.stations.filter (fun s => strContains s.label frag)).length ∧
        countLabel frag (d.stations.filter (fun s => strContains s.label frag)) = 1)) := by
  rcases hm : d.stations.filter (fun s => strContains s.label frag) with _ | ⟨a, _ | ⟨b, t⟩⟩
  · simp [SurveyData.get_by_label_part, hm, findLabel]
  · simp [SurveyData.get_by_label_part, hm]
  · simp only [SurveyData.get_by_label_part, hm]
    constructor
    · intro hs
      refine Or.inr ⟨by simp only [List.length_cons]; omega, ?_⟩
      obtain ⟨s, hsome⟩ := Option.isSome_iff_exists.mp hs
      rcases findLabel_eq_some hsome with ⟨j, hj, hlab, _⟩
      have hpos : 0 < countLabel frag (a :: b :: t) :=
        countLabel_pos.mpr ⟨s, listNth_mem hj, hlab⟩
      have hle : countLabel frag (a :: b :: t) ≤ 1 := by
        rw [← hm]
        exact le_trans (countLabel_filter_le _ _ _) (countLabel_le_one_of_nodup h)
      omega
    · intro hr
      rcases hr with h1 | ⟨_, hcnt⟩
      · exact absurd h1 (by simp only [List.length_cons]; omega)
      · have hpos : 0 < countLabel frag (a :: b :: t) := by omega
        rcases countLabel_pos.mp hpos with ⟨s, hmem, hlab⟩
        cases hfind : findLabel frag (a :: b :: t) with
        | none => exact absurd hlab (findLabel_eq_none.mp hfind s hmem)
        | some s' => simp [hfind]

/-- Witness for C8 at the one-station network. -/
theorem label_part_lookup_spec_witness :
    (dataW.stations.map (fun s => s.label)).Nodup ∧
    ((dataW.get_by_label_part labA).isSome = true ↔
      ((dataW.stations.filter (fun s => strContains s.label labA)).length = 1 ∨
       (2 ≤ (dataW.stations.filter (fun s => strContains s.label labA)).length ∧
        countLabel labA (dataW.stations.filter (fun s => strContains s.label labA)) = 1))) :=
  ⟨by decide, label_part_lookup_spec dataW labA (by decide)⟩

/-- A stream containing the bad-data signal never completes the reading
loop. -/
theorem runRecords_badData (gen : Nat → String) :
    ∀ (recs : List Record) (st : LoaderState), Record.badData ∈ recs →
      ∃ e, runRecords gen recs st = .error e := by
  intro recs
  induction recs with
  | nil => intro st h; simp at h
  | cons r rs ih =>
    intro st h
    rcases List.mem_cons.mp h with h1 | h1
    · subst h1
      exact ⟨.badData, rfl⟩
    · cases hstep : stepRecord gen st r with
      | error e => exact ⟨e, by simp [runRecords, hstep]⟩
      | ok st' =>
        rcases ih st' h1 with ⟨e, he⟩
        exact ⟨e, by simp [runRecords, hstep, he]⟩

/-- Counterexample to C3 as stated: on a stream consisting of the decoder's
bad-data signal, the load does not return a typed `MalformedStream` failure
to the caller — it panics (`panic!("Bad data in Survex file.")`), so control
never returns with an error value. -/
theorem malformed_stream_cex :
    loadStream genU [Record.badData] = .panicked .badData ∧
    returnsToCaller (loadStream genU [Record.badData]) = false :=
  ⟨rfl, rfl⟩

/-- C3 (amended): a stream containing the decoder's bad-data signal at any
position makes the load abort with a panic; in particular no Network,
partial or complete, is ever handed to the caller. -/
theorem malformed_no_network (gen : Nat → String) (recs : List Record)
    (h : Record.badData ∈ recs) :
    ∃ e, loadStream gen recs = .panicked e ∧
      ∀ dd, loadStream gen recs ≠ .network dd := by
  rcases runRecords_badData gen recs initState h with ⟨e, he⟩
  refine ⟨e, by simp [loadStream, he], by simp [loadStream, he]⟩

/-- Witness for C3 (amended) at the one-signal stream. -/
theorem malformed_no_network_witness :
    Record.badData ∈ [Record.badData] ∧
    (∃ e, loadStream genU [Record.badData] = .panicked e ∧
      ∀ dd, loadStream genU [Record.badData] ≠ .network dd) :=
  ⟨by simp, malformed_no_network genU [Record.badData] (by simp)⟩

/-- C5: loading Move(0,0,0), Label A, Line(3,4,0), Label B produces a network
with exactly one edge, joining the stations labelled A and B, of weight 5
(the Euclidean 3-4-5 distance), resolved after the stream ends by coordinate
lookup of the buffered pair. -/
theorem edge_weight_345 :
    ∃ dd, loadStream genU c5recs = .network dd ∧
      dd.edges.length = 1 ∧
      (∃ sa sb, dd.get_by_label labA = some sa ∧ dd.get_by_label labB = some sb ∧
        dd.edges = [(sa.index, sb.index, (5 : ℝ))]) := by
  have harg : ((p000.x - p340.x) ^ 2 + (p000.y - p340.y) ^ 2 + (p000.z - p340.z) ^ 2 : ℚ) =
      25 := by
    norm_num [p000, p340]
  have hd : Point.distance p000 p340 = 5 := by
    rw [Point.distance, harg]
    rw [show ((25 : ℚ) : ℝ) = 25 by norm_num]
    rw [show (25 : ℝ) = 5 ^ 2 by norm_num, Real.sqrt_sq (by norm_num : (0 : ℝ) ≤ 5)]
  refine ⟨c5data, rfl, rfl,
    Station.new labA p000 0, Station.new labB p340 1, rfl, rfl, ?_⟩
  simp [c5data, Station.new, hd]

/-! Preservation of the label invariant by each loader operation. -/

theorem nodup_append_singleton {l : List α} {a : α} (hl : l.Nodup) (ha : a ∉ l) :
    (l ++ [a]).Nodup := by
  induction l with
  | nil => simp
  | cons b t ih =>
    rcases List.nodup_cons.mp hl with ⟨hb, ht⟩
    refine List.nodup_cons.mpr ⟨?_, ih ht (fun hm => ha (List.mem_cons_of_mem _ hm))⟩
    intro hmem
    rcases List.mem_append.mp hmem with h1 | h1
    · exact hb h1
    · simp only [List.mem_singleton] at h1
      exact ha (by rw [← h1]; exact List.mem_cons_self b t)

theorem gen_ctr_not_mem {gen : Nat → String} {L : List String} {ctr : Nat}
    (hinj : Function.Injective gen) (hav : ∀ n, gen n ∉ L) {ls : List String}
    (hmem : ∀ x ∈ ls, x ∈ L ∨ ∃ k, k < ctr ∧ x = gen k) : gen ctr ∉ ls := by
  intro hin
  rcases hmem _ hin with h1 | ⟨k, hk, he⟩
  · exact hav ctr h1
  · exact absurd (hinj he) (by omega)

theorem good_add_or_update {gen : Nat → String} {L : List String} {ctr : Nat}
    {d : SurveyData} (c : Point) {lab : String} (hlab : lab ∈ L)
    (hgood : GoodLabels gen L ctr d) : GoodLabels gen L ctr (d.add_or_update c lab).1 := by
  obtain ⟨hnd, hmem, hlen⟩ := hgood
  rcases hfe : d.get_by_label lab with _ | s0
  · have hnotin : ∀ s ∈ d.stations, s.label ≠ lab := findLabel_eq_none.mp hfe
    rw [add_or_update_new c hfe]
    refine ⟨?_, ?_, ?_⟩
    · show (List.map _ (d.stations ++ [Station.new lab c d.nodes.length])).Nodup
      rw [List.map_append]
      refine nodup_append_singleton hnd ?_
      intro hin
      rcases List.mem_map.mp hin with ⟨s, hs, he⟩
      exact hnotin s hs he
    · intro x hx
      rw [SurveyData.labels] at hx
      simp only [List.map_append] at hx
      rcases List.mem_append.mp hx with h1 | h1
      · exact hmem x h1
      · simp only [List.map_cons, List.map_nil, List.mem_singleton] at h1
        subst h1
        exact Or.inl hlab
    · simp only [List.length_append, List.length_cons, List.length_nil]
      omega
  · rcases findLabel_eq_some hfe with ⟨i, h1, h2, h3⟩
    rw [add_or_update_of_first c h1 h2 h3]
    have hl : (List.map (fun s => s.label)
        (modifyIdx d.stations i (fun t => { t with coords := c }))) =
        List.map (fun s => s.label) d.stations :=
      map_modifyIdx_same (fun s : Station => s.label)
        (fun t : Station => { t with coords := c }) d.stations i (fun a => rfl)
    refine ⟨?_, ?_, ?_⟩
    · show (List.map _ (modifyIdx d.stations i _)).Nodup
      rw [hl]; exact hnd
    · intro x hx
      rw [SurveyData.labels] at hx
      rw [hl] at hx
      exact hmem x hx
    · simp only [length_modifyIdx]
      exact hlen

theorem good_stepLabel {gen : Nat → String} {L : List String}
    (hinj : Function.Injective gen) (hav : ∀ n, gen n ∉ L)
    {st : LoaderState} (p : Point) {text : String} (flags : Nat) (htext : text ∈ L)
    (hgood : GoodLabels gen L st.ctr st.data) :
    GoodLabels gen L (stepLabel gen st p text flags).ctr
        (stepLabel gen st p text flags).data ∧
      st.ctr ≤ (stepLabel gen st p text flags).ctr := by
  obtain ⟨hnd, hmem, hlen⟩ := hgood
  have hctr : (stepLabel gen st p text flags).ctr =
      (if (flags &&& 0x7f) &&& 0x20 ≠ 0 then st.ctr + 1 else st.ctr) := rfl
  rcases hfe : st.data.get_by_label text with _ | s0
  · -- a fresh station is appended, then the flag writes touch it in place
    have hnotin : ∀ s ∈ st.data.stations, s.label ≠ text := findLabel_eq_none.mp hfe
    have heq := add_or_update_new p hfe
    have hstations : (stepLabel gen st p text flags).data.stations =
        st.data.stations ++
          [applyFlags (flags &&& 0x7f) (gen st.ctr)
            (Station.new text p st.data.nodes.length)] := by
      simp only [stepLabel, heq, modifyIdx_append_len]
    have hnodes : (stepLabel gen st p text flags).data.nodes =
        st.data.nodes ++ [text] := by
      simp only [stepLabel, heq]
    have hlabmap : List.map (fun s : Station => s.label)
        (stepLabel gen st p text flags).data.stations =
        List.map (fun s : Station => s.label) st.data.stations ++
          [if (flags &&& 0x7f) &&& 0x20 ≠ 0 then gen st.ctr else text] := by
      rw [hstations, List.map_append]
      simp [applyFlags_spec, Station.new]
    have hx0 : (if (flags &&& 0x7f) &&& 0x20 ≠ 0 then gen st.ctr else text) ∉
        List.map (fun s : Station => s.label) st.data.stations := by
      by_cases hb : (flags &&& 0x7f) &&& 0x20 ≠ 0
      · rw [if_pos hb]
        exact gen_ctr_not_mem hinj hav hmem
      · rw [if_neg hb]
        intro hin
        rcases List.mem_map.mp hin with ⟨s, hs, he⟩
        exact hnotin s hs he
    refine ⟨⟨?_, ?_, ?_⟩, ?_⟩
    · show (List.map _ _).Nodup
      rw [hlabmap]
      exact nodup_append_singleton hnd hx0
    · intro x hx
      rw [SurveyData.labels, hlabmap] at hx
      rcases List.mem_append.mp hx with h1 | h1
      · rcases hmem x h1 with h2 | ⟨k, hk, he⟩
        · exact Or.inl h2
        · refine Or.inr ⟨k, ?_, he⟩
          rw [hctr]
          by_cases hb : (flags &&& 0x7f) &&& 0x20 ≠ 0 <;> simp [hb] <;> omega
      · simp only [List.mem_singleton] at h1
        by_cases hb : (flags &&& 0x7f) &&& 0x20 ≠ 0
        · rw [if_pos hb] at h1
          refine Or.inr ⟨st.ctr, ?_, h1⟩
          rw [hctr, if_pos hb]
          omega
        · rw [if_neg hb] at h1
          subst h1
          exact Or.inl htext
    · rw [hstations, hnodes]
      simp only [List.length_append, List.length_cons, List.length_nil]
      omega
    · rw [hctr]
      by_cases hb : (flags &&& 0x7f) &&& 0x20 ≠ 0 <;> simp [hb]
  · -- the existing station is updated in place
    rcases findLabel_eq_some hfe with ⟨i, h1, h2, h3⟩
    have heq := add_or_update_of_first p h1 h2 h3
    have hstations : (stepLabel gen st p text flags).data.stations =
        modifyIdx st.data.stations i
          (fun t => applyFlags (flags &&& 0x7f) (gen st.ctr) { t with coords := p }) := by
      simp only [stepLabel, heq, modifyIdx_modifyIdx]
    have hnodes : (stepLabel gen st p text flags).data.nodes = st.data.nodes := by
      simp only [stepLabel, heq]
    by_cases hb : (flags &&& 0x7f) &&& 0x20 ≠ 0
    · have hlabmap : List.map (fun s : Station => s.label)
          (stepLabel gen st p text flags).data.stations =
          modifyIdx (List.map (fun s : Station => s.label) st.data.stations) i
            (fun _ => gen st.ctr) := by
        rw [hstations]
        exact map_modifyIdx_const (fun s : Station => s.label)
          (fun t : Station => applyFlags (flags &&& 0x7f) (gen st.ctr) { t with coords := p })
          st.data.stations i (gen st.ctr) (fun a => by simp [applyFlags_spec, hb])
      have hnotin : gen st.ctr ∉ List.map (fun s : Station => s.label) st.data.stations :=
        gen_ctr_not_mem hinj hav hmem
      refine ⟨⟨?_, ?_, ?_⟩, ?_⟩
      · show (List.map _ _).Nodup
        rw [hlabmap]
        exact nodup_modifyIdx_const hnd hnotin
      · intro x hx
        rw [SurveyData.labels, hlabmap] at hx
        rcases mem_modifyIdx_const hx with h4 | h4
        · refine Or.inr ⟨st.ctr, ?_, h4⟩
          rw [hctr, if_pos hb]
          omega
        · rcases hmem x h4 with h5 | ⟨k, hk, he⟩
          · exact Or.inl h5
          · refine Or.inr ⟨k, ?_, he⟩
            rw [hctr, if_pos hb]
            omega
      · rw [hstations, hnodes, length_modifyIdx]
        exact hlen
      · rw [hctr, if_pos hb]
        omega
    · have hlabmap : List.map (fun s : Station => s.label)
          (stepLabel gen st p text flags).data.stations =
          List.map (fun s : Station => s.label) st.data.stations := by
        rw [hstations]
        exact map_modifyIdx_same (fun s : Station => s.label)
          (fun t : Station => applyFlags (flags &&& 0x7f) (gen st.ctr) { t with coords := p })
          st.data.stations i (fun a => by simp [applyFlags_spec, hb])
      refine ⟨⟨?_, ?_, ?_⟩, ?_⟩
      · show (List.map _ _).Nodup
        rw [hlabmap]
        exact hnd
      · intro x hx
        rw [SurveyData.labels, hlabmap] at hx
        rcases hmem x hx with h5 | ⟨k, hk, he⟩
        · exact Or.inl h5
        · refine Or.inr ⟨k, ?_, he⟩
          rw [hctr, if_neg hb]
          omega
      · rw [hstations, hnodes, length_modifyIdx]
        exact hlen
      · rw [hctr, if_neg hb]

theorem opLabels_tail_subset (o : LoadOp) (os : List LoadOp) :
    opLabels os ⊆ opLabels (o :: os) := by
  cases o with
  | ups c l => exact List.subset_cons_self _ _
  | dec r => cases r <;> first | exact List.subset_cons_self _ _ | exact fun x hx => hx

theorem good_stepXsect {gen : Nat → String} {L : List String} {st st' : LoaderState}
    {l r u d : ℚ} {flags : Nat} {text : String}
    (h : stepXsect st l r u d flags text = .ok st')
    (hgood : GoodLabels gen L st.ctr st.data) :
    GoodLabels gen L st'.ctr st'.data ∧ st.ctr ≤ st'.ctr := by
  obtain ⟨hnd, hmem, hlen⟩ := hgood
  rcases stepXsect_ok h with ⟨q, _hfi, hst⟩
  subst hst
  have hlabmap : List.map (fun s : Station => s.label)
      (modifyIdx st.data.stations q.1
        (fun s => { s with lrud := s.lrud.update l r u d })) =
      List.map (fun s : Station => s.label) st.data.stations :=
    map_modifyIdx_same (fun s : Station => s.label)
      (fun s : Station => { s with lrud := s.lrud.update l r u d })
      st.data.stations q.1 (fun a => rfl)
  refine ⟨⟨?_, ?_, ?_⟩, le_refl _⟩
  · show (List.map _ _).Nodup
    rw [hlabmap]
    exact hnd
  · intro x hx
    rw [SurveyData.labels] at hx
    rw [hlabmap] at hx
    exact hmem x hx
  · simp only [length_modifyIdx]
    exact hlen

theorem runOps_good (gen : Nat → String) (L : List String)
    (hinj : Function.Injective gen) (hav : ∀ n, gen n ∉ L) :
    ∀ (ops : List LoadOp) (st st' : LoaderState), opLabels ops ⊆ L →
      GoodLabels gen L st.ctr st.data → runOps gen ops st = .ok st' →
      GoodLabels gen L st'.ctr st'.data := by
  intro ops
  induction ops with
  | nil =>
    intro st st' _ hgood hrun
    simp only [runOps] at hrun
    injection hrun with hrun
    subst hrun
    exact hgood
  | cons o os ih =>
    intro st st' hsub hgood hrun
    simp only [runOps] at hrun
    cases hstep : stepOp gen st o with
    | error e => rw [hstep] at hrun; simp at hrun
    | ok st1 =>
      rw [hstep] at hrun
      have htail : opLabels os ⊆ L := fun x hx => hsub (opLabels_tail_subset o os hx)
      have hgood1 : GoodLabels gen L st1.ctr st1.data := by
        cases o with
        | ups c lab =>
          simp only [stepOp] at hstep
          injection hstep with hstep
          subst hstep
          exact good_add_or_update c (hsub (by simp [opLabels])) hgood
        | dec rc =>
          cases rc with
          | move p =>
            simp only [stepOp, stepRecord] at hstep
            injection hstep with hstep
            subst hstep
            exact hgood
          | line p =>
            simp only [stepOp, stepRecord] at hstep
            injection hstep with hstep
            subst hstep
            exact hgood
          | cross =>
            simp only [stepOp, stepRecord] at hstep
            injection hstep with hstep
            subst hstep
            exact hgood
          | xsectEnd =>
            simp only [stepOp, stepRecord] at hstep
            injection hstep with hstep
            subst hstep
            exact hgood
          | errorInfo =>
            simp only [stepOp, stepRecord] at hstep
            injection hstep with hstep
            subst hstep
            exact hgood
          | badData => simp [stepOp, stepRecord] at hstep
          | unknown => simp [stepOp, stepRecord] at hstep
          | label p text flags =>
            simp only [stepOp, stepRecord] at hstep
            injection hstep with hstep
            subst hstep
            exact (good_stepLabel hinj hav p flags (hsub (by simp [opLabels])) hgood).1
          | xsect l r u d flags text =>
            simp only [stepOp, stepRecord] at hstep
            exact (good_stepXsect hstep hgood).1
      exact ih st1 st' htail hgood1 hrun

theorem genU_injective : Function.Injective genU := by
  intro a b h
  have h2 : List.replicate (a + 1) 'u' = List.replicate (b + 1) 'u' := by
    simpa [genU] using congrArg String.data h
  have h3 := congrArg List.length h2
  simp only [List.length_replicate] at h3
  omega

theorem genU_not_in_opsW : ∀ n, genU n ∉ opLabels opsW := by
  intro n hmem
  have hops : opLabels opsW = [labA] := rfl
  rw [hops, List.mem_singleton] at hmem
  have h2 : List.replicate (n + 1) 'u' = labA.data := congrArg String.data hmem
  have h3 := congrArg List.length h2
  simp only [List.length_replicate] at h3
  have h4 : n = 0 := by
    have h5 : labA.data.length = 1 := rfl
    omega
  subst h4
  exact absurd h2 (by decide)

/-- C1: for every sequence of record-interpreter and upsert operations run
from the empty network — with the generated anonymous labels fresh: the
generator injective and avoiding every label supplied by the operations —
the station labels are pairwise distinct and the number of distinct labels
equals the number of graph nodes. -/
theorem labels_nodup_nodes_count (gen : Nat → String) (ops : List LoadOp)
    (st' : LoaderState) (hinj : Function.Injective gen)
    (hav : ∀ n, gen n ∉ opLabels ops)
    (hrun : runOps gen ops initState = .ok st') :
    st'.data.labels.Nodup ∧ st'.data.labels.dedup.length = st'.data.nodes.length := by
  have hgood : GoodLabels gen (opLabels ops) st'.ctr st'.data := by
    refine runOps_good gen (opLabels ops) hinj hav ops initState st' (fun x hx => hx) ?_ hrun
    refine ⟨List.nodup_nil, ?_, rfl⟩
    intro x hx
    simp [SurveyData.labels, initState, SurveyData.new] at hx
  obtain ⟨hnd, _, hlen⟩ := hgood
  refine ⟨hnd, ?_⟩
  rw [List.dedup_eq_self.mpr hnd]
  simpa [SurveyData.labels] using hlen

/-- Witness for C1 at a one-upsert operation sequence. -/
theorem labels_nodup_nodes_count_witness :
    Function.Injective genU ∧ (∀ n, genU n ∉ opLabels opsW) ∧
    (runOps genU opsW initState = .ok stateC1W) ∧
    (stateC1W.data.labels.Nodup ∧
      stateC1W.data.labels.dedup.length = stateC1W.data.nodes.length) :=
  ⟨genU_injective, genU_not_in_opsW, rfl,
    labels_nodup_nodes_count genU opsW stateC1W genU_injective genU_not_in_opsW rfl⟩
